import Mathlib

/-!
# Verification of the shallow-water time stepper (swe.py)

Shallow embedding of the 2D shallow-water finite-difference solver.
Fields (u, v, eta) are modelled as total functions `Nat → Nat → ℚ`; the
claims quantify only over in-domain indices i < N_x, j < N_y.  Machine
floating-point arithmetic is embedded as exact rational arithmetic, so
algebraic identities of the scheme hold exactly.

The per-step stages follow the statement order of the source's main loop:
momentum predictor (lines 150-151), Coriolis corrector (lines 154-156),
boundary enforcement (lines 158-159), upwind face depths (lines 166-176),
net fluxes (lines 178-182) and the continuity update (lines 186-194).
The numpy buffers `u_np1`, `v_np1` are modelled by passing the content the
buffer holds before the stage writes it (`scr`); after each iteration the
source copies the next-step buffers into the current ones (lines 197-199),
so when a new iteration starts the scratch content of `u_np1`/`v_np1`
coincides with `u_n`/`v_n`, which is how `step` instantiates them.
-/

namespace SWE

/-- A 2D field, indexed [i in 0..N_x), [j in 0..N_y); total function on ℕ. -/
abbrev Field := Nat → Nat → ℚ

/-- Module-level configuration of swe.py that the main loop reads:
grid point counts, spacings, time step, physical constants, the Coriolis
row coefficients `f` (line 63) and the optional forcing fields. -/
structure Params where
  Nx : Nat
  Ny : Nat
  g : ℚ
  H : ℚ
  dx : ℚ
  dy : ℚ
  dt : ℚ
  useCoriolis : Bool
  f : Nat → ℚ
  useSource : Bool
  useSink : Bool
  source : Field
  sink : Field

/-- The state (u, v, eta) at one instant. -/
structure SWState where
  u : Field
  v : Field
  eta : Field

/-- Momentum predictor for u, line 150:
`u_np1[:-1, :] = u_n[:-1, :] - g * dt / dx * (eta_n[1:, :] - eta_n[:-1, :])`.
Rows 0..N_x-2 are written; row N_x-1 keeps the buffer content `scr`. -/
def predictU (P : Params) (scr u eta : Field) : Field := fun i j =>
  if i + 1 < P.Nx then u i j - P.g * P.dt / P.dx * (eta (i + 1) j - eta i j)
  else scr i j

/-- Momentum predictor for v, line 151:
`v_np1[:, :-1] = v_n[:, :-1] - g * dt / dy * (eta_n[:, 1:] - eta_n[:, :-1])`.
Columns 0..N_y-2 are written; column N_y-1 keeps the buffer content `scr`. -/
def predictV (P : Params) (scr v eta : Field) : Field := fun i j =>
  if j + 1 < P.Ny then v i j - P.g * P.dt / P.dy * (eta i (j + 1) - eta i j)
  else scr i j

/-- Coriolis corrector for u, lines 154-155: when enabled,
`u_np1[:, :] = u_np1[:, :] + f * v_n[:, :]` (f broadcasts over j). -/
def corioU (P : Params) (buf v : Field) : Field :=
  if P.useCoriolis then fun i j => buf i j + P.f j * v i j else buf

/-- Coriolis corrector for v, lines 154 and 156: when enabled,
`v_np1[:, :] = v_np1[:, :] - f * u_n[:, :]`. -/
def corioV (P : Params) (buf u : Field) : Field :=
  if P.useCoriolis then fun i j => buf i j - P.f j * u i j else buf

/-- Eastern boundary condition, line 159: `u_np1[-1, :] = 0.0`. -/
def boundU (P : Params) (buf : Field) : Field := fun i j =>
  if i = P.Nx - 1 then 0 else buf i j

/-- Northern boundary condition, line 158: `v_np1[:, -1] = 0.0`. -/
def boundV (P : Params) (buf : Field) : Field := fun i j =>
  if j = P.Ny - 1 then 0 else buf i j

/-- East-face upwind depth, lines 166-167:
`h_e[:-1, :] = np.where(u_np1[:-1, :] > 0, eta_n[:-1, :] + H, eta_n[1:, :] + H)`;
`h_e[-1, :] = eta_n[-1, :] + H`. -/
def h_e (P : Params) (u1 eta : Field) : Field := fun i j =>
  if i + 1 < P.Nx then
    (if u1 i j > 0 then eta i j + P.H else eta (i + 1) j + P.H)
  else eta i j + P.H

/-- West-face upwind depth, lines 169-170:
`h_w[0, :] = eta_n[0, :] + H`;
`h_w[1:, :] = np.where(u_np1[:-1, :] > 0, eta_n[:-1, :] + H, eta_n[1:, :] + H)`. -/
def h_w (P : Params) (u1 eta : Field) : Field := fun i j =>
  if i = 0 then eta 0 j + P.H
  else if u1 (i - 1) j > 0 then eta (i - 1) j + P.H else eta i j + P.H

/-- North-face upwind depth, lines 172-173 (y-direction mirror of h_e). -/
def h_n (P : Params) (v1 eta : Field) : Field := fun i j =>
  if j + 1 < P.Ny then
    (if v1 i j > 0 then eta i j + P.H else eta i (j + 1) + P.H)
  else eta i j + P.H

/-- South-face upwind depth, lines 175-176 (y-direction mirror of h_w). -/
def h_s (P : Params) (v1 eta : Field) : Field := fun i j =>
  if j = 0 then eta i 0 + P.H
  else if v1 i (j - 1) > 0 then eta i (j - 1) + P.H else eta i j + P.H

/-- Net x-flux, lines 178-179:
`uhwe[0, :] = u_np1[0, :] * h_e[0, :]`;
`uhwe[1:, :] = u_np1[1:, :] * h_e[1:, :] - u_np1[:-1, :] * h_w[1:, :]`. -/
def uhwe (P : Params) (u1 eta : Field) : Field := fun i j =>
  if i = 0 then u1 0 j * h_e P u1 eta 0 j
  else u1 i j * h_e P u1 eta i j - u1 (i - 1) j * h_w P u1 eta i j

/-- Net y-flux, lines 181-182 (y-direction mirror of uhwe). -/
def vhns (P : Params) (v1 eta : Field) : Field := fun i j =>
  if j = 0 then v1 i 0 * h_n P v1 eta i 0
  else v1 i j * h_n P v1 eta i j - v1 i (j - 1) * h_s P v1 eta i j

/-- Continuity update, lines 186-194:
`eta_np1[:, :] = eta_n[:, :] - dt * (uhwe[:, :] / dx + vhns[:, :] / dy)`,
then `eta_np1 += dt * source` if enabled, `eta_np1 -= dt * sink` if enabled. -/
def etaUpdate (P : Params) (u1 v1 eta : Field) : Field := fun i j =>
  eta i j - P.dt * (uhwe P u1 eta i j / P.dx + vhns P v1 eta i j / P.dy)
    + (if P.useSource then P.dt * P.source i j else 0)
    - (if P.useSink then P.dt * P.sink i j else 0)

/-- The updated u of one loop iteration: predictor, then Coriolis corrector
(reading the pre-step v), then eastern boundary.  The predictor's scratch
buffer holds the previous iteration's result, which lines 197-199 have just
copied into `u_n`, hence `s.u`. -/
def stepU (P : Params) (s : SWState) : Field :=
  boundU P (corioU P (predictU P s.u s.u s.eta) s.v)

/-- The updated v of one loop iteration (mirror of stepU). -/
def stepV (P : Params) (s : SWState) : Field :=
  boundV P (corioV P (predictV P s.v s.v s.eta) s.u)

/-- One iteration of the main time loop, lines 144-199: updated velocities
first, then the continuity update reading the updated velocities and the
old eta. -/
def step (P : Params) (s : SWState) : SWState :=
  ⟨stepU P s, stepV P s, etaUpdate P (stepU P s) (stepV P s) s.eta⟩

/-- t applications of the loop body. -/
def iterate (P : Params) : Nat → SWState → SWState
  | 0, s => s
  | t + 1, s => step P (iterate P t s)

/-- The main loop, lines 144 and 201: `while time_step < max_time_step:`
with `time_step += 1` at the end of each iteration (`t` is `time_step`). -/
def simLoop (P : Params) (maxT t : Nat) (s : SWState) : SWState :=
  if h : t < maxT then simLoop P maxT (t + 1) (step P s) else s
termination_by maxT - t

/-- Total mass Σ eta over the grid, as printed at line 213
(`np.sum(eta_n)`); also reused to total any field over the domain. -/
def mass (P : Params) (e : Field) : ℚ :=
  ∑ i ∈ Finset.range P.Nx, ∑ j ∈ Finset.range P.Ny, e i j

/-- Sink construction, line 75:
`sink = np.ones((N_x, N_y)) * source.sum() / (N_x * N_y)`. -/
def mkSink (Nx Ny : Nat) (source : Field) : Field := fun _ _ =>
  (∑ i ∈ Finset.range Nx, ∑ j ∈ Finset.range Ny, source i j)
    / ((Nx : ℚ) * (Ny : ℚ))

/-! ## Concrete instances used by the witnesses -/

/-- A concrete u field on a 2×2 grid. -/
def uF0 : Field := fun i j => (i : ℚ) + 2 * (j : ℚ)

/-- A concrete v field on a 2×2 grid. -/
def vF0 : Field := fun i j => (i : ℚ) - (j : ℚ)

/-- A concrete eta field on a 2×2 grid. -/
def etaF0 : Field := fun i j => (i : ℚ) * (j : ℚ) + 1

/-- A concrete scratch buffer content. -/
def scr0 : Field := fun _ _ => 7

/-- A concrete parameter set: 2×2 grid, Coriolis on, forcing off. -/
def P0 : Params :=
  ⟨2, 2, 981 / 100, 100, 1, 1, 1 / 10, true, fun _ => 1 / 2, false, false,
    fun _ _ => 0, fun _ _ => 0⟩

/-- A concrete state. -/
def s0 : SWState := ⟨uF0, vF0, etaF0⟩

/-! ## Claim theorems -/

/-- C1: the momentum predictor sets, from the current-step fields only,
`u_next[i,j] = u_cur[i,j] − g·dt/dx·(eta_cur[i+1,j] − eta_cur[i,j])` for every
i in [0, N_x−2] and every j, and
`v_next[i,j] = v_cur[i,j] − g·dt/dy·(eta_cur[i,j+1] − eta_cur[i,j])` for every
j in [0, N_y−2] and every i; row i = N_x−1 of u and column j = N_y−1 of v are
not computed by this difference (they keep the scratch buffer content). -/
theorem momentum_predictor_c1 (P : Params) (scrU scrV u v eta : Field)
    (hNx : 2 ≤ P.Nx) (hNy : 2 ≤ P.Ny) :
    (∀ i j, i ≤ P.Nx - 2 →
      predictU P scrU u eta i j
        = u i j - P.g * P.dt / P.dx * (eta (i + 1) j - eta i j))
    ∧ (∀ j, predictU P scrU u eta (P.Nx - 1) j = scrU (P.Nx - 1) j)
    ∧ (∀ i j, j ≤ P.Ny - 2 →
      predictV P scrV v eta i j
        = v i j - P.g * P.dt / P.dy * (eta i (j + 1) - eta i j))
    ∧ (∀ i, predictV P scrV v eta i (P.Ny - 1) = scrV i (P.Ny - 1)) := by
  refine ⟨?_, ?_, ?_, ?_⟩
  · intro i j hi; unfold predictU; rw [if_pos (by omega)]
  · intro j; unfold predictU; rw [if_neg (by omega)]
  · intro i j hj; unfold predictV; rw [if_pos (by omega)]
  · intro i; unfold predictV; rw [if_neg (by omega)]

/-- Witness for C1, at a concrete 2×2 configuration and cell (0,0). -/
theorem momentum_predictor_c1_witness :
    (2 ≤ P0.Nx ∧ 2 ≤ P0.Ny ∧ (0 : Nat) ≤ P0.Nx - 2)
    ∧ predictU P0 scr0 uF0 etaF0 0 0
        = uF0 0 0 - P0.g * P0.dt / P0.dx * (etaF0 1 0 - etaF0 0 0) :=
  ⟨⟨by decide, by decide, by decide⟩,
    (momentum_predictor_c1 P0 scr0 scr0 uF0 vF0 etaF0 (by decide)
      (by decide)).1 0 0 (by decide)⟩

/-- C4: when Coriolis is enabled, the corrector adds `f[j]·v_cur[i,j]` to
`u_next[i,j]` and subtracts `f[j]·u_cur[i,j]` from `v_next[i,j]`, for all i
and j, using the pre-step velocities `s.u`, `s.v` rather than the predictor's
output; when Coriolis is disabled this stage changes nothing. -/
theorem coriolis_corrector_c4 (P : Params) (s : SWState) :
    (P.useCoriolis = true →
      ∀ i j,
        corioU P (predictU P s.u s.u s.eta) s.v i j
            = predictU P s.u s.u s.eta i j + P.f j * s.v i j
          ∧ corioV P (predictV P s.v s.v s.eta) s.u i j
            = predictV P s.v s.v s.eta i j - P.f j * s.u i j)
    ∧ (P.useCoriolis = false →
        corioU P (predictU P s.u s.u s.eta) s.v = predictU P s.u s.u s.eta
        ∧ corioV P (predictV P s.v s.v s.eta) s.u
          = predictV P s.v s.v s.eta) := by
  constructor
  · intro hc i j
    constructor
    · unfold corioU; rw [if_pos hc]
    · unfold corioV; rw [if_pos hc]
  · intro hc
    constructor
    · unfold corioU; rw [if_neg (by simp [hc])]
    · unfold corioV; rw [if_neg (by simp [hc])]

/-- Witness for C4, at a concrete Coriolis-enabled configuration. -/
theorem coriolis_corrector_c4_witness :
    P0.useCoriolis = true
    ∧ corioU P0 (predictU P0 s0.u s0.u s0.eta) s0.v 0 1
        = predictU P0 s0.u s0.u s0.eta 0 1 + P0.f 1 * s0.v 0 1 :=
  ⟨rfl, ((coriolis_corrector_c4 P0 s0).1 rfl 0 1).1⟩

/-- The updated u vanishes on the eastern boundary row, by line 159. -/
lemma stepU_boundary (P : Params) (s : SWState) (j : Nat) :
    stepU P s (P.Nx - 1) j = 0 := by
  unfold stepU boundU; simp

/-- The updated v vanishes on the northern boundary column, by line 158. -/
lemma stepV_boundary (P : Params) (s : SWState) (i : Nat) :
    stepV P s i (P.Ny - 1) = 0 := by
  unfold stepV boundV; simp

/-- C5: for every initial state and every step t ≥ 1 (with Coriolis enabled
or disabled), `u_t[N_x−1, j] = 0` for every j and `v_t[i, N_y−1] = 0` for
every i, exactly: the boundary enforcement runs after the momentum predictor
and the Coriolis corrector in every step. -/
theorem boundary_invariant_c5 (P : Params) (s : SWState) (t : Nat)
    (ht : 1 ≤ t) :
    (∀ j, (iterate P t s).u (P.Nx - 1) j = 0)
    ∧ (∀ i, (iterate P t s).v i (P.Ny - 1) = 0) := by
  obtain ⟨t', rfl⟩ : ∃ t', t = t' + 1 := ⟨t - 1, by omega⟩
  exact ⟨fun j => stepU_boundary P (iterate P t' s) j,
    fun i => stepV_boundary P (iterate P t' s) i⟩

/-- Witness for C5, one step on a concrete nonzero state. -/
theorem boundary_invariant_c5_witness :
    1 ≤ 1 ∧ (iterate P0 1 s0).u (P0.Nx - 1) 0 = 0 :=
  ⟨by decide, (boundary_invariant_c5 P0 s0 1 (by decide)).1 0⟩

/-- For 1 ≤ i < N_x, the west face depth of cell i is the east face depth of
cell i−1: lines 166 and 170 compute the same `np.where` expression. -/
lemma h_w_eq_h_e (P : Params) (u1 eta : Field) (i j : Nat) (h1 : 1 ≤ i)
    (h2 : i < P.Nx) : h_w P u1 eta i j = h_e P u1 eta (i - 1) j := by
  have h0 : i ≠ 0 := by omega
  have h3 : i - 1 + 1 = i := by omega
  unfold h_w h_e
  rw [if_neg h0, h3, if_pos h2]

/-- For 1 ≤ j < N_y, the south face depth of cell j is the north face depth
of cell j−1: lines 172 and 176 compute the same `np.where` expression. -/
lemma h_s_eq_h_n (P : Params) (v1 eta : Field) (i j : Nat) (h1 : 1 ≤ j)
    (h2 : j < P.Ny) : h_s P v1 eta i j = h_n P v1 eta i (j - 1) := by
  have h0 : j ≠ 0 := by omega
  have h3 : j - 1 + 1 = j := by omega
  unfold h_s h_n
  rw [if_neg h0, h3, if_pos h2]

/-- C2: the upwind face depths are selected by the sign of the
already-updated velocity against the old eta:
`h_e[i,j] = eta_cur[i,j] + H` if `u_next[i,j] > 0` and `eta_cur[i+1,j] + H`
otherwise, with `h_e[N_x−1,j] = eta_cur[N_x−1,j] + H`;
`h_w[0,j] = eta_cur[0,j] + H` and for 1 ≤ i < N_x,
`h_w[i,j] = h_e[i−1,j]` (the identical donor-cell value reused as the
neighboring cell's west face); `h_n` and `h_s` are defined symmetrically in
j using `v_next`. -/
theorem upwind_depths_c2 (P : Params) (s : SWState) (hNx : 1 ≤ P.Nx)
    (hNy : 1 ≤ P.Ny) :
    (∀ i j, i + 1 < P.Nx →
      h_e P (stepU P s) s.eta i j
        = if stepU P s i j > 0 then s.eta i j + P.H
          else s.eta (i + 1) j + P.H)
    ∧ (∀ j, h_e P (stepU P s) s.eta (P.Nx - 1) j = s.eta (P.Nx - 1) j + P.H)
    ∧ (∀ j, h_w P (stepU P s) s.eta 0 j = s.eta 0 j + P.H)
    ∧ (∀ i j, 1 ≤ i → i < P.Nx →
        h_w P (stepU P s) s.eta i j = h_e P (stepU P s) s.eta (i - 1) j)
    ∧ (∀ i j, j + 1 < P.Ny →
      h_n P (stepV P s) s.eta i j
        = if stepV P s i j > 0 then s.eta i j + P.H
          else s.eta i (j + 1) + P.H)
    ∧ (∀ i, h_n P (stepV P s) s.eta i (P.Ny - 1) = s.eta i (P.Ny - 1) + P.H)
    ∧ (∀ i, h_s P (stepV P s) s.eta i 0 = s.eta i 0 + P.H)
    ∧ (∀ i j, 1 ≤ j → j < P.Ny →
        h_s P (stepV P s) s.eta i j = h_n P (stepV P s) s.eta i (j - 1)) := by
  refine ⟨?_, ?_, ?_, ?_, ?_, ?_, ?_, ?_⟩
  · intro i j hi; unfold h_e; rw [if_pos hi]
  · intro j; unfold h_e; rw [if_neg (by omega)]
  · intro j; unfold h_w; rw [if_pos rfl]
  · intro i j h1 h2; exact h_w_eq_h_e P (stepU P s) s.eta i j h1 h2
  · intro i j hj; unfold h_n; rw [if_pos hj]
  · intro i; unfold h_n; rw [if_neg (by omega)]
  · intro i; unfold h_s; rw [if_pos rfl]
  · intro i j h1 h2; exact h_s_eq_h_n P (stepV P s) s.eta i j h1 h2

/-- Witness for C2, the west/east face identity at i = 1 on a 2×2 grid. -/
theorem upwind_depths_c2_witness :
    (1 ≤ P0.Nx ∧ 1 ≤ P0.Ny ∧ 1 ≤ 1 ∧ 1 < P0.Nx)
    ∧ h_w P0 (stepU P0 s0) s0.eta 1 0
        = h_e P0 (stepU P0 s0) s0.eta 0 0 :=
  ⟨⟨by decide, by decide, by decide, by decide⟩,
    (upwind_depths_c2 P0 s0 (by decide) (by decide)).2.2.2.1 1 0 (by decide)
      (by decide)⟩

/-- C3: the continuity update sets
`eta_next[i,j] = eta_cur[i,j] − dt·(uhwe[i,j]/dx + vhns[i,j]/dy)`, where
`uhwe[i,j] = u_next[i,j]·h_e[i,j] − u_next[i−1,j]·h_w[i,j]` for i ≥ 1 and
`uhwe[0,j] = u_next[0,j]·h_e[0,j]` (`vhns` symmetric in j with `v_next`);
if the source is enabled `dt·source[i,j]` is then added, and if the sink is
enabled `dt·sink[i,j]` is subtracted. -/
theorem continuity_update_c3 (P : Params) (s : SWState) :
    (∀ i j, (step P s).eta i j
        = s.eta i j
          - P.dt * (uhwe P (stepU P s) s.eta i j / P.dx
            + vhns P (stepV P s) s.eta i j / P.dy)
          + (if P.useSource then P.dt * P.source i j else 0)
          - (if P.useSink then P.dt * P.sink i j else 0))
    ∧ (∀ i j, 1 ≤ i →
        uhwe P (stepU P s) s.eta i j
          = stepU P s i j * h_e P (stepU P s) s.eta i j
            - stepU P s (i - 1) j * h_w P (stepU P s) s.eta i j)
    ∧ (∀ j, uhwe P (stepU P s) s.eta 0 j
        = stepU P s 0 j * h_e P (stepU P s) s.eta 0 j)
    ∧ (∀ i j, 1 ≤ j →
        vhns P (stepV P s) s.eta i j
          = stepV P s i j * h_n P (stepV P s) s.eta i j
            - stepV P s i (j - 1) * h_s P (stepV P s) s.eta i j)
    ∧ (∀ i, vhns P (stepV P s) s.eta i 0
        = stepV P s i 0 * h_n P (stepV P s) s.eta i 0) := by
  refine ⟨?_, ?_, ?_, ?_, ?_⟩
  · intro i j; rfl
  · intro i j hi; unfold uhwe; rw [if_neg (by omega)]
  · intro j; unfold uhwe; rw [if_pos rfl]
  · intro i j hj; unfold vhns; rw [if_neg (by omega)]
  · intro i; unfold vhns; rw [if_pos rfl]

/-- Witness for C3, the net-flux decomposition at i = 1 on the 2×2 grid. -/
theorem continuity_update_c3_witness :
    1 ≤ 1
    ∧ uhwe P0 (stepU P0 s0) s0.eta 1 0
        = stepU P0 s0 1 0 * h_e P0 (stepU P0 s0) s0.eta 1 0
          - stepU P0 s0 0 0 * h_w P0 (stepU P0 s0) s0.eta 1 0 :=
  ⟨by decide, (continuity_update_c3 P0 s0).2.1 1 0 (by decide)⟩

/-- Unfolding of uhwe away from the western column. -/
lemma uhwe_pos (P : Params) (u1 eta : Field) (i j : Nat) (hi : i ≠ 0) :
    uhwe P u1 eta i j
      = u1 i j * h_e P u1 eta i j - u1 (i - 1) j * h_w P u1 eta i j := by
  unfold uhwe; rw [if_neg hi]

/-- Unfolding of vhns away from the southern row. -/
lemma vhns_pos (P : Params) (v1 eta : Field) (i j : Nat) (hj : j ≠ 0) :
    vhns P v1 eta i j
      = v1 i j * h_n P v1 eta i j - v1 i (j - 1) * h_s P v1 eta i j := by
  unfold vhns; rw [if_neg hj]

/-- Partial sums of the net x-flux telescope to the last east-face flux. -/
lemma sum_uhwe_eq (P : Params) (u1 eta : Field) (j : Nat) :
    ∀ n, n ≤ P.Nx →
      ∑ i ∈ Finset.range n, uhwe P u1 eta i j
        = if n = 0 then 0 else u1 (n - 1) j * h_e P u1 eta (n - 1) j := by
  intro n
  induction n with
  | zero => intro _; simp
  | succ m ih =>
    intro hm
    rw [Finset.sum_range_succ, ih (by omega)]
    cases m with
    | zero =>
      rw [if_neg (Nat.succ_ne_zero 0), if_pos rfl, zero_add]
      unfold uhwe
      rw [if_pos rfl]
    | succ k =>
      rw [if_neg (Nat.succ_ne_zero k), if_neg (Nat.succ_ne_zero (k + 1)),
        uhwe_pos P u1 eta (k + 1) j (Nat.succ_ne_zero k),
        h_w_eq_h_e P u1 eta (k + 1) j (by omega) (by omega)]
      simp only [Nat.succ_sub_one]
      ring

/-- Partial sums of the net y-flux telescope to the last north-face flux. -/
lemma sum_vhns_eq (P : Params) (v1 eta : Field) (i : Nat) :
    ∀ n, n ≤ P.Ny →
      ∑ j ∈ Finset.range n, vhns P v1 eta i j
        = if n = 0 then 0 else v1 i (n - 1) * h_n P v1 eta i (n - 1) := by
  intro n
  induction n with
  | zero => intro _; simp
  | succ m ih =>
    intro hm
    rw [Finset.sum_range_succ, ih (by omega)]
    cases m with
    | zero =>
      rw [if_neg (Nat.succ_ne_zero 0), if_pos rfl, zero_add]
      unfold vhns
      rw [if_pos rfl]
    | succ k =>
      rw [if_neg (Nat.succ_ne_zero k), if_neg (Nat.succ_ne_zero (k + 1)),
        vhns_pos P v1 eta i (k + 1) (Nat.succ_ne_zero k),
        h_s_eq_h_n P v1 eta i (k + 1) (by omega) (by omega)]
      simp only [Nat.succ_sub_one]
      ring

/-- With the updated u, the net x-fluxes of a full row of cells cancel:
the telescoped sum ends at the eastern boundary where u is zero. -/
lemma sum_uhwe_zero (P : Params) (s : SWState) (hNx : 1 ≤ P.Nx) (j : Nat) :
    ∑ i ∈ Finset.range P.Nx, uhwe P (stepU P s) s.eta i j = 0 := by
  rw [sum_uhwe_eq P (stepU P s) s.eta j P.Nx le_rfl, if_neg (by omega),
    stepU_boundary, zero_mul]

/-- With the updated v, the net y-fluxes of a full column of cells cancel:
the telescoped sum ends at the northern boundary where v is zero. -/
lemma sum_vhns_zero (P : Params) (s : SWState) (hNy : 1 ≤ P.Ny) (i : Nat) :
    ∑ j ∈ Finset.range P.Ny, vhns P (stepV P s) s.eta i j = 0 := by
  rw [sum_vhns_eq P (stepV P s) s.eta i P.Ny le_rfl, if_neg (by omega),
    stepV_boundary, zero_mul]

/-- The flux part of the continuity update does not change total mass when
both whole-row and whole-column net fluxes cancel. -/
lemma sum_flux_base (P : Params) (u1 v1 eta : Field)
    (hA : ∀ j, ∑ i ∈ Finset.range P.Nx, uhwe P u1 eta i j = 0)
    (hB : ∀ i, ∑ j ∈ Finset.range P.Ny, vhns P v1 eta i j = 0) :
    ∑ i ∈ Finset.range P.Nx, ∑ j ∈ Finset.range P.Ny,
      (eta i j
        - P.dt * (uhwe P u1 eta i j / P.dx + vhns P v1 eta i j / P.dy))
      = mass P eta := by
  have key : ∀ i ∈ Finset.range P.Nx,
      ∑ j ∈ Finset.range P.Ny,
        (eta i j
          - P.dt * (uhwe P u1 eta i j / P.dx + vhns P v1 eta i j / P.dy))
      = (∑ j ∈ Finset.range P.Ny, eta i j)
        - P.dt / P.dx * ∑ j ∈ Finset.range P.Ny, uhwe P u1 eta i j := by
    intro i _
    rw [Finset.sum_sub_distrib]
    congr 1
    calc ∑ j ∈ Finset.range P.Ny,
          P.dt * (uhwe P u1 eta i j / P.dx + vhns P v1 eta i j / P.dy)
        = ∑ j ∈ Finset.range P.Ny,
            (P.dt / P.dx * uhwe P u1 eta i j
              + P.dt / P.dy * vhns P v1 eta i j) := by
          refine Finset.sum_congr rfl ?_
          intro j _
          ring
      _ = P.dt / P.dx * (∑ j ∈ Finset.range P.Ny, uhwe P u1 eta i j)
          + P.dt / P.dy * (∑ j ∈ Finset.range P.Ny, vhns P v1 eta i j) := by
          rw [Finset.sum_add_distrib, ← Finset.mul_sum, ← Finset.mul_sum]
      _ = P.dt / P.dx * (∑ j ∈ Finset.range P.Ny, uhwe P u1 eta i j) := by
          rw [hB i, mul_zero, add_zero]
  have hAc : ∑ i ∈ Finset.range P.Nx, ∑ j ∈ Finset.range P.Ny,
      uhwe P u1 eta i j = 0 := by
    rw [Finset.sum_comm]
    simp [hA]
  rw [Finset.sum_congr rfl key, Finset.sum_sub_distrib, ← Finset.mul_sum,
    hAc, mul_zero, sub_zero]
  rfl

/-- Summing a gated forcing term over the grid. -/
lemma sum_ite_forcing (P : Params) (c : Bool) (e : Field) :
    ∑ i ∈ Finset.range P.Nx, ∑ j ∈ Finset.range P.Ny,
      (if c then P.dt * e i j else 0)
    = if c then P.dt * mass P e else 0 := by
  cases c <;> simp [mass, Finset.mul_sum]

/-- Mass balance of the continuity update: total mass changes only by the
gated forcing totals. -/
lemma mass_etaUpdate (P : Params) (u1 v1 eta : Field)
    (hA : ∀ j, ∑ i ∈ Finset.range P.Nx, uhwe P u1 eta i j = 0)
    (hB : ∀ i, ∑ j ∈ Finset.range P.Ny, vhns P v1 eta i j = 0) :
    mass P (etaUpdate P u1 v1 eta)
      = mass P eta + (if P.useSource then P.dt * mass P P.source else 0)
        - (if P.useSink then P.dt * mass P P.sink else 0) := by
  have hsplit : ∀ i ∈ Finset.range P.Nx,
      ∑ j ∈ Finset.range P.Ny, etaUpdate P u1 v1 eta i j
      = (∑ j ∈ Finset.range P.Ny,
          (eta i j
            - P.dt * (uhwe P u1 eta i j / P.dx + vhns P v1 eta i j / P.dy)))
        + (∑ j ∈ Finset.range P.Ny,
            (if P.useSource then P.dt * P.source i j else 0))
        - (∑ j ∈ Finset.range P.Ny,
            (if P.useSink then P.dt * P.sink i j else 0)) := by
    intro i _
    simp only [etaUpdate]
    rw [Finset.sum_sub_distrib, Finset.sum_add_distrib]
  calc mass P (etaUpdate P u1 v1 eta)
      = ∑ i ∈ Finset.range P.Nx, ∑ j ∈ Finset.range P.Ny,
          etaUpdate P u1 v1 eta i j := rfl
    _ = (∑ i ∈ Finset.range P.Nx, ∑ j ∈ Finset.range P.Ny,
          (eta i j
            - P.dt * (uhwe P u1 eta i j / P.dx + vhns P v1 eta i j / P.dy)))
        + (∑ i ∈ Finset.range P.Nx, ∑ j ∈ Finset.range P.Ny,
            (if P.useSource then P.dt * P.source i j else 0))
        - (∑ i ∈ Finset.range P.Nx, ∑ j ∈ Finset.range P.Ny,
            (if P.useSink then P.dt * P.sink i j else 0)) := by
        rw [Finset.sum_congr rfl hsplit, Finset.sum_sub_distrib,
          Finset.sum_add_distrib]
    _ = mass P eta + (if P.useSource then P.dt * mass P P.source else 0)
        - (if P.useSink then P.dt * mass P P.sink else 0) := by
        rw [sum_flux_base P u1 v1 eta hA hB,
          sum_ite_forcing P P.useSource P.source,
          sum_ite_forcing P P.useSink P.sink]

/-- Mass balance of one full loop iteration. -/
lemma mass_step (P : Params) (s : SWState) (hNx : 1 ≤ P.Nx)
    (hNy : 1 ≤ P.Ny) :
    mass P (step P s).eta
      = mass P s.eta + (if P.useSource then P.dt * mass P P.source else 0)
        - (if P.useSink then P.dt * mass P P.sink else 0) :=
  mass_etaUpdate P (stepU P s) (stepV P s) s.eta
    (fun j => sum_uhwe_zero P s hNx j) (fun i => sum_vhns_zero P s hNy i)

/-- C6: with use_source = use_sink = false, total mass Σ eta is conserved by
every step: for all step counts T, Σ eta_T = Σ eta_0 exactly (in the exact
rational arithmetic of the embedding), because the interior flux differences
telescope to zero when the boundary row of u_next and boundary column of
v_next are zero. -/
theorem mass_conservation_c6 (P : Params) (s : SWState) (T : Nat)
    (hNx : 1 ≤ P.Nx) (hNy : 1 ≤ P.Ny)
    (hsrc : P.useSource = false) (hsink : P.useSink = false) :
    mass P (iterate P T s).eta = mass P s.eta := by
  induction T with
  | zero => rfl
  | succ t ih =>
    have h := mass_step P (iterate P t s) hNx hNy
    simp only [hsrc, hsink, Bool.false_eq_true, if_false, add_zero,
      sub_zero] at h
    calc mass P (iterate P (t + 1) s).eta
        = mass P (iterate P t s).eta := h
      _ = mass P s.eta := ih

/-- Witness for C6, two steps on a concrete nonzero 2×2 state. -/
theorem mass_conservation_c6_witness :
    (1 ≤ P0.Nx ∧ 1 ≤ P0.Ny ∧ P0.useSource = false ∧ P0.useSink = false)
    ∧ mass P0 (iterate P0 2 s0).eta = mass P0 s0.eta :=
  ⟨⟨by decide, by decide, rfl, rfl⟩,
    mass_conservation_c6 P0 s0 2 (by decide) (by decide) rfl rfl⟩

/-- One loop iteration maps the all-zero state to the all-zero state when
forcing is disabled. -/
lemma step_zero (P : Params) (s : SWState) (hsrc : P.useSource = false)
    (hsink : P.useSink = false) (hu : ∀ i j, s.u i j = 0)
    (hv : ∀ i j, s.v i j = 0) (he : ∀ i j, s.eta i j = 0) :
    (∀ i j, (step P s).u i j = 0) ∧ (∀ i j, (step P s).v i j = 0)
      ∧ (∀ i j, (step P s).eta i j = 0) := by
  have hU : ∀ i j, stepU P s i j = 0 := by
    intro i j
    unfold stepU boundU corioU predictU
    cases hc : P.useCoriolis <;> simp [hc, hu, hv, he]
  have hV : ∀ i j, stepV P s i j = 0 := by
    intro i j
    unfold stepV boundV corioV predictV
    cases hc : P.useCoriolis <;> simp [hc, hu, hv, he]
  refine ⟨hU, hV, ?_⟩
  intro i j
  show etaUpdate P (stepU P s) (stepV P s) s.eta i j = 0
  unfold etaUpdate uhwe vhns
  simp [hU, hV, he, hsrc, hsink]

/-- All iterates of the all-zero state are all-zero (forcing disabled). -/
lemma iterate_zero_aux (P : Params) (s : SWState) (hsrc : P.useSource = false)
    (hsink : P.useSink = false) (hu : ∀ i j, s.u i j = 0)
    (hv : ∀ i j, s.v i j = 0) (he : ∀ i j, s.eta i j = 0) :
    ∀ t, (∀ i j, (iterate P t s).u i j = 0)
      ∧ (∀ i j, (iterate P t s).v i j = 0)
      ∧ (∀ i j, (iterate P t s).eta i j = 0) := by
  intro t
  induction t with
  | zero => exact ⟨hu, hv, he⟩
  | succ t ih =>
    exact step_zero P (iterate P t s) hsrc hsink ih.1 ih.2.1 ih.2.2

/-- C7: if u_0 = v_0 = 0 and eta_0 = 0 everywhere and source and sink are
disabled, then for every t ≥ 1 the state is exactly zero (u_t = v_t = 0 and
eta_t = 0 at every cell), whether or not Coriolis is enabled. -/
theorem zero_fixed_point_c7 (P : Params) (s : SWState)
    (hsrc : P.useSource = false) (hsink : P.useSink = false)
    (hu : ∀ i j, s.u i j = 0) (hv : ∀ i j, s.v i j = 0)
    (he : ∀ i j, s.eta i j = 0) (t : Nat) (_ht : 1 ≤ t) :
    ∀ i j, (iterate P t s).u i j = 0 ∧ (iterate P t s).v i j = 0
      ∧ (iterate P t s).eta i j = 0 := by
  intro i j
  obtain ⟨h1, h2, h3⟩ := iterate_zero_aux P s hsrc hsink hu hv he t
  exact ⟨h1 i j, h2 i j, h3 i j⟩

/-- The all-zero state. -/
def sZ : SWState := ⟨fun _ _ => 0, fun _ _ => 0, fun _ _ => 0⟩

/-- Witness for C7, three steps from the zero state with Coriolis on. -/
theorem zero_fixed_point_c7_witness :
    (P0.useSource = false ∧ P0.useSink = false ∧ 1 ≤ 3)
    ∧ (iterate P0 3 sZ).eta 1 1 = 0 :=
  ⟨⟨rfl, rfl, by decide⟩,
    (zero_fixed_point_c7 P0 sZ rfl rfl (fun _ _ => rfl) (fun _ _ => rfl)
      (fun _ _ => rfl) 3 (by decide) 1 1).2.2⟩

/-- Appending one step at the front of an iteration. -/
lemma iterate_succ_apply (P : Params) (t : Nat) (s : SWState) :
    iterate P (t + 1) s = iterate P t (step P s) := by
  induction t generalizing s with
  | zero => rfl
  | succ t ih =>
    have h : iterate P (t + 1 + 1) s = step P (iterate P (t + 1) s) := rfl
    rw [h, ih]
    rfl

/-- Loop unwinding: from counter t, the loop performs maxT − t steps. -/
lemma simLoop_eq (P : Params) (maxT : Nat) :
    ∀ k t s, maxT - t = k → simLoop P maxT t s = iterate P k s := by
  intro k
  induction k with
  | zero =>
    intro t s hk
    unfold simLoop
    rw [dif_neg (by omega)]
    rfl
  | succ k ih =>
    intro t s hk
    unfold simLoop
    rw [dif_pos (by omega), ih (t + 1) (step P s) (by omega)]
    exact (iterate_succ_apply P k s).symm

/-- C9: the loop applies the step integrator repeatedly from step 1,
stopping exactly when the step counter reaches the configured maximum and
never earlier; the number of integrator steps performed equals the span from
step 1 to the configured maximum step count, maxT − 1. -/
theorem simulation_loop_c9 (P : Params) (maxT : Nat) (s : SWState) :
    simLoop P maxT 1 s = iterate P (maxT - 1) s :=
  simLoop_eq P maxT (maxT - 1) 1 s rfl

/-- Total of a spatially constant field. -/
lemma mass_const (P : Params) (c : ℚ) :
    mass P (fun _ _ => c) = (P.Nx : ℚ) * (P.Ny : ℚ) * c := by
  unfold mass
  rw [Finset.sum_const, Finset.sum_const, Finset.card_range,
    Finset.card_range, smul_smul, nsmul_eq_mul]
  push_cast
  ring

/-- C10: when both source and sink are enabled and the sink is built as in
the reference setup (`sink = ones * source.sum() / (N_x * N_y)`), the sink
field is spatially uniform and its total equals the source's total exactly,
so the net per-step forcing contribution dt·(Σ source − Σ sink) is zero and
total mass is still conserved under combined forcing. -/
theorem source_sink_balance_c10 (P : Params) (s : SWState)
    (hNx : 1 ≤ P.Nx) (hNy : 1 ≤ P.Ny)
    (hsrc : P.useSource = true) (hsink : P.useSink = true)
    (hmk : P.sink = mkSink P.Nx P.Ny P.source) :
    (∀ i j i' j', P.sink i j = P.sink i' j')
    ∧ mass P P.sink = mass P P.source
    ∧ mass P (step P s).eta = mass P s.eta := by
  have huniform : ∀ i j i' j', P.sink i j = P.sink i' j' := by
    intro i j i' j'
    rw [hmk]
    rfl
  have hx : (P.Nx : ℚ) ≠ 0 := Nat.cast_ne_zero.mpr (by omega)
  have hy : (P.Ny : ℚ) ≠ 0 := Nat.cast_ne_zero.mpr (by omega)
  have htot : mass P P.sink = mass P P.source := by
    rw [hmk]
    unfold mkSink
    rw [mass_const, mul_comm, div_mul_cancel₀ _ (mul_ne_zero hx hy)]
    rfl
  refine ⟨huniform, htot, ?_⟩
  have h := mass_step P s hNx hNy
  rw [hsrc, hsink] at h
  simp only [if_true] at h
  rw [h, htot]
  ring

/-- A concrete source field. -/
def srcF : Field := fun i j => (i : ℚ) + (j : ℚ) + 1

/-- A concrete parameter set with source and sink enabled, the sink built
from the source as at line 75. -/
def PSS : Params :=
  ⟨2, 2, 981 / 100, 100, 1, 1, 1 / 10, false, fun _ => 0, true, true,
    srcF, mkSink 2 2 srcF⟩

/-- Witness for C10, totals of the concrete source and its derived sink. -/
theorem source_sink_balance_c10_witness :
    (1 ≤ PSS.Nx ∧ 1 ≤ PSS.Ny ∧ PSS.useSource = true ∧ PSS.useSink = true)
    ∧ mass PSS PSS.sink = mass PSS PSS.source :=
  ⟨⟨by decide, by decide, rfl, rfl⟩,
    (source_sink_balance_c10 PSS s0 (by decide) (by decide) rfl rfl
      rfl).2.1⟩

/-! ## Configuration validation (C8)

swe.py derives `dt = 0.1 * min(dx, dy) / sqrt(g * H)` (line 51) and has no
validation code of its own; the setup-time checks below exist only in the
spec's error-handling design (section 7), so they are modelled from the
spec. -/

/-- Modelled from the spec: the error taxonomy of section 7
(ConfigurationError, ShapeMismatchError); the repository source contains no
such declarations. -/
inductive ConfigError where
  | configurationError : ConfigError
  | shapeMismatchError : ConfigError
deriving DecidableEq

/-- Modelled from the spec: the configuration input of section 6 — grid
point counts, domain lengths, physical constants and time step; the
repository source keeps these as module-level constants (lines 33-53). -/
structure Config where
  Nx : Nat
  Ny : Nat
  Lx : ℚ
  Ly : ℚ
  g : ℚ
  H : ℚ
  dt : ℚ

/-- Grid spacing in x, line 49: `dx = L_x / (N_x - 1)`. -/
def dxOf (c : Config) : ℚ := c.Lx / ((c.Nx : ℚ) - 1)

/-- Grid spacing in y, line 50: `dy = L_y / (N_y - 1)`. -/
def dyOf (c : Config) : ℚ := c.Ly / ((c.Ny : ℚ) - 1)

/-- Modelled from the spec: setup-time validation of section 7 — malformed
grid (N_x or N_y < 2), non-positive physical constants, or CFL condition
violated (dt·√(g·H) > min(dx,dy)) raise ConfigurationError before any step
executes.  The CFL test is stated in squared form, dt²·g·H > min(dx,dy)²,
to stay in exact rational arithmetic; with dt > 0 and g, H, min(dx,dy) > 0
already enforced by the earlier checks, this is equivalent to the spec's
square-root form.  No such validation exists in the repository source. -/
def validateConfig (c : Config) : Except ConfigError Config :=
  if c.Nx < 2 ∨ c.Ny < 2 then .error .configurationError
  else if c.Lx ≤ 0 ∨ c.Ly ≤ 0 ∨ c.g ≤ 0 ∨ c.H ≤ 0 ∨ c.dt ≤ 0 then
    .error .configurationError
  else if (min (dxOf c) (dyOf c)) ^ 2 < c.dt ^ 2 * (c.g * c.H) then
    .error .configurationError
  else .ok c

/-- Modelled from the spec: the run entry of sections 4.2 and 7 — all
configuration errors are detected and reported before the step loop begins;
only a validated configuration starts the loop. -/
def runSimulation (c : Config) (maxT : Nat) (P : Params) (s : SWState) :
    Except ConfigError SWState :=
  match validateConfig c with
  | .error e => .error e
  | .ok _ => .ok (simLoop P maxT 1 s)

/-- C8: a configuration whose time step violates the CFL bound (in squared
form min(dx,dy)² < dt²·g·H, which covers the example
dt = 2·min(dx,dy)/√(g·H)) is rejected with ConfigurationError at setup, and
the simulation entry returns that error without running any step. -/
theorem cfl_rejection_c8 (c : Config)
    (hviol : (min (dxOf c) (dyOf c)) ^ 2 < c.dt ^ 2 * (c.g * c.H)) :
    validateConfig c = Except.error ConfigError.configurationError
    ∧ ∀ (maxT : Nat) (P : Params) (s : SWState),
        runSimulation c maxT P s
          = Except.error ConfigError.configurationError := by
  have hv : validateConfig c = Except.error ConfigError.configurationError := by
    unfold validateConfig
    split_ifs <;> rfl
  refine ⟨hv, ?_⟩
  intro maxT P s
  unfold runSimulation
  rw [hv]

/-- A concrete CFL-violating configuration: dx = dy = 1, g = 4, H = 1,
dt = 1 = 2·min(dx,dy)/√(g·H). -/
def cBad : Config := ⟨2, 2, 1, 1, 4, 1, 1⟩

/-- Witness for C8: the concrete violating configuration is rejected. -/
theorem cfl_rejection_c8_witness :
    (min (dxOf cBad) (dyOf cBad)) ^ 2 < cBad.dt ^ 2 * (cBad.g * cBad.H)
    ∧ runSimulation cBad 500 P0 s0
        = Except.error ConfigError.configurationError :=
  ⟨by norm_num [cBad, dxOf, dyOf],
    (cfl_rejection_c8 cBad (by norm_num [cBad, dxOf, dyOf])).2 500 P0 s0⟩

end SWE
